import Mathlib

/-!
# Verification of the LMI-agent backend against its specification

Shallow embedding of the job-ingestion / RAG backend
(`backend/app/services/ingestion.py`, `backend/app/rag/embeddings.py`,
`backend/app/rag/retriever.py`, `backend/app/rag/pipeline.py`,
`backend/app/database.py`, `backend/app/config.py`).

Python strings are modelled as `List Char` where index arithmetic matters
(the chunker) and as `String` elsewhere; machine floats are modelled as `ℚ`;
wall-clock times as `ℤ`; fallible paths as `Option` / `Except`; the
while-loop of the chunker is fuel-indexed (`none` = the loop has not
finished within the given fuel, for any fuel — i.e. divergence).
-/

namespace LMI

/-! ## Chunker — `embeddings.chunk_text`

`chunk_text(text, chunk_size=512, overlap=100)` from
`backend/app/rag/embeddings.py`, lines 153-189.  Python string indexing is
by code point, so text is `List Char` here. -/

/-- Python slice `text[s:e]` (for `0 ≤ s ≤ e`, clamped to the length). -/
def pySlice (text : List Char) (s e : Nat) : List Char :=
  (text.take e).drop s

/-- Python `str.strip()`: remove leading and trailing whitespace. -/
def pyStrip (l : List Char) : List Char :=
  ((l.dropWhile Char.isWhitespace).reverse.dropWhile Char.isWhitespace).reverse

/-- Does `sub` occur in `text` starting exactly at index `i`? -/
def matchesAt (text sub : List Char) (i : Nat) : Bool :=
  (text.drop i).take sub.length == sub

/-- Python `text.rfind(sub, s, e)`: the greatest index `i` with `s ≤ i`,
`i + len(sub) ≤ e` and `text[i : i+len(sub)] = sub`; `none` when there is no
occurrence (Python returns `-1`, only ever compared with `>` downstream). -/
def pyRfind (text sub : List Char) (s e : Nat) : Option Nat :=
  ((List.range e).filter fun i =>
    decide (s ≤ i) && decide (i + sub.length ≤ e) && matchesAt text sub i).getLast?

/-- The sequence of sentence enders probed by `chunk_text`
(`['. ', '! ', '? ', '\n\n']`, in that order). -/
def sentenceEnders : List (List Char) :=
  [['.', ' '], ['!', ' '], ['?', ' '], ['\n', '\n']]

/-- The `for punct in [...]` loop of `chunk_text`: the first ender whose
rightmost occurrence in `[s, e)` lies strictly past `s + chunk_size // 2`
moves the window end to just after that occurrence; otherwise `e` stays. -/
def adjustEnd (text : List Char) (chunk_size s e : Nat) : Nat :=
  match sentenceEnders.findSome? (fun p =>
    match pyRfind text p s e with
    | some i => if s + chunk_size / 2 < i then some (i + p.length) else none
    | none => none) with
  | some e2 => e2
  | none => e

/-- The `while start < len(text)` loop of `chunk_text`, fuel-indexed.
`none` means the loop did not finish within `fuel` iterations; the next
window start is `end - overlap` (`Nat` subtraction: nonnegative in every
reachable configuration considered here). -/
def chunk_text_loop (text : List Char) (chunk_size overlap : Nat) :
    Nat → Nat → List (List Char) → Option (List (List Char))
  | 0, _, _ => none
  | fuel + 1, start, chunks =>
    if start < text.length then
      let e0 := start + chunk_size
      let e := if e0 < text.length then adjustEnd text chunk_size start e0 else e0
      let c := pyStrip (pySlice text start e)
      chunk_text_loop text chunk_size overlap fuel (e - overlap)
        (if c.isEmpty then chunks else chunks ++ [c])
    else
      some chunks

/-- The function `chunk_text(text, chunk_size, overlap)`: empty input gives `[]`, input
of length at most `chunk_size` is returned whole (untrimmed), otherwise the
windowing loop runs (with the given fuel bounding its iteration count). -/
def chunk_text (text : List Char) (chunk_size overlap fuel : Nat) :
    Option (List (List Char)) :=
  if text.isEmpty then some []
  else if text.length ≤ chunk_size then some [text]
  else chunk_text_loop text chunk_size overlap fuel 0 []

/-! ## Embedding provider — `HuggingFaceEmbeddingGenerator.generate_embeddings_batch`

`backend/app/rag/embeddings.py`, lines 63-88.  The remote call
`_extract_embeddings_direct` (an HTTP request to the HuggingFace inference
API) is external to the repository, so it is an oracle parameter
`List String → Option (List (List ℚ))`; `none` models the call raising
after exhausting its retries, `some r` models a `200` response decoded to
the vector list `r`.  `gen_dim` is `self.dimension` (the generator's
declared dimension, used for the zero-vector fallback). -/

/-- The single-text fallback of the batch loop:
`self._extract_embeddings_direct([t])[0]`, with any exception (including an
empty response, whose `[0]` raises `IndexError`) caught and replaced by a
zero vector of the declared dimension. -/
def point_embedding (oracle : List String → Option (List (List ℚ)))
    (gen_dim : Nat) (t : String) : List ℚ :=
  match oracle [t] with
  | some (v :: _) => v
  | _ => List.replicate gen_dim 0

/-- The `for i in range(0, len(texts), batch_size)` loop of
`generate_embeddings_batch`: each slice of `batch_size` texts is embedded
in one oracle call; if that call fails the slice is retried one text at a
time, a failed single text contributing a zero vector.  Fuel-indexed
(`fuel = texts.length` suffices for any positive batch size). -/
def generate_embeddings_batch_loop (oracle : List String → Option (List (List ℚ)))
    (gen_dim batch_size : Nat) : Nat → List String → List (List ℚ)
  | 0, _ => []
  | _, [] => []
  | fuel + 1, texts =>
    let batch := texts.take batch_size
    let rest := texts.drop batch_size
    (match oracle batch with
     | some embeddings => embeddings
     | none =>
       batch.map fun t =>
         match oracle [t] with
         | some (v :: _) => v
         | _ => List.replicate gen_dim 0) ++
      generate_embeddings_batch_loop oracle gen_dim batch_size fuel rest

/-- The method `generate_embeddings_batch(texts, batch_size)` (default `batch_size = 8`;
ingestion passes `5`). -/
def generate_embeddings_batch (oracle : List String → Option (List (List ℚ)))
    (gen_dim : Nat) (texts : List String) (batch_size : Nat) : List (List ℚ) :=
  generate_embeddings_batch_loop oracle gen_dim batch_size texts.length texts

/-! ## Configuration — `config.py` defaults used by ingestion -/

/-- The `Settings.chunk_size` default (`config.py`, line 35). -/
def settings_chunk_size : Nat := 512

/-- The `Settings.chunk_overlap` default (`config.py`, line 36). -/
def settings_chunk_overlap : Nat := 100

/-- The `Settings.retrieval_top_k` default (`config.py`, line 39). -/
def settings_retrieval_top_k : Nat := 5

/-! ## Data model — `database.py` and the raw postings fed to ingestion

`JobPosting` / `JobChunk` mirror the SQLAlchemy models (`database.py`,
lines 38-83); surrogate keys are `Nat`, timestamps are `ℤ`.  `RawJob` is
the dictionary produced by the fetchers and consumed by
`JobIngestionService._ingest_jobs` (missing optional keys are `""` /
`none`, matching `job_data.get(...)` defaults). -/

structure RawJob where
  job_id : String
  title : String
  company : String
  location : String
  description : String
  requirements : String
  skills : List String
  salary_range : Option String
  source_url : String
  source_platform : String
  scraped_date : Option Int
deriving DecidableEq

structure JobPosting where
  id : Nat
  job_id : String
  title : String
  company : String
  location : String
  description : String
  requirements : String
  skills : List String
  salary_range : Option String
  source_url : String
  source_platform : String
  scraped_date : Int
deriving DecidableEq

structure JobChunk where
  job_posting_id : Nat
  chunk_text : String
  chunk_index : Nat
  embedding : List ℚ
deriving DecidableEq

/-- The database state touched by ingestion: the two tables plus the
posting-id sequence.  (The `job_chunks.metadata` JSON snapshot carries no
behaviour relevant to the claims and is omitted.) -/
structure DBState where
  postings : List JobPosting
  chunks : List JobChunk
  next_id : Nat
deriving DecidableEq

/-- The `JobIngestionService.stats` counters. -/
structure Stats where
  jobs_new : Nat
  jobs_updated : Nat
  jobs_skipped : Nat
  chunks_created : Nat
  errors : Nat
deriving DecidableEq

/-! ## Chunk preparation — `embeddings.prepare_job_chunks` -/

/-- The `full_text` f-string of `prepare_job_chunks` (lines 198-210),
`.strip()`ped. -/
def full_text (j : RawJob) : List Char :=
  pyStrip ("\nJob Title: " ++ j.title ++ "\nCompany: " ++ j.company ++
    "\nLocation: " ++ j.location ++ "\n\nDescription:\n" ++ j.description ++
    "\n\nRequirements:\n" ++ j.requirements ++ "\n\nSkills: " ++
    String.intercalate ", " j.skills ++ "\n").toList

/-- One element of the list built by `prepare_job_chunks` (text and
ordinal index; the metadata snapshot is omitted, see `DBState`). -/
structure ChunkData where
  text : String
  index : Nat
deriving DecidableEq

/-- The function `prepare_job_chunks(job_data)`: chunk the assembled full text with the
configured size and overlap and enumerate the chunks.  The fuel
`length + 1` strictly dominates the loop's iteration count at the
configured `(512, 100)` (each iteration advances the window start by at
least `512/2 + 3 - 100 > 0` characters). -/
def prepare_job_chunks (j : RawJob) : List ChunkData :=
  let t := full_text j
  ((chunk_text t settings_chunk_size settings_chunk_overlap (t.length + 1)).getD []).enum.map
    fun p => ⟨String.mk p.2, p.1⟩

/-! ## Ingestion — `JobIngestionService` (`services/ingestion.py`) -/

/-- The heuristic `JobIngestionService._should_update` (lines 162-168): update when the
new description is strictly longer, or the new skills **list** is strictly
longer, than the stored ones. -/
def should_update (existing : JobPosting) (new_data : RawJob) : Bool :=
  decide (existing.description.length < new_data.description.length) ||
  decide (existing.skills.length < new_data.skills.length)

/-- Python `a or b` on strings (`""` is falsy). -/
def pyOrStr (a b : String) : String := if a = "" then b else a

/-- Python `a or b` on nullable strings (`None` and `""` are falsy). -/
def pyOrOpt (a b : Option String) : Option String :=
  match a with
  | some s => if s = "" then b else some s
  | none => b

/-- The method `JobIngestionService._update_job` (lines 170-176).  `list(set(x + y))`
enumerates the set in unspecified order; it is modelled by `List.dedup`,
which denotes the same finite set (all claims about skills are stated at
the level of `toFinset`). -/
def update_job (existing : JobPosting) (new_data : RawJob) (now : Int) : JobPosting :=
  { existing with
    description := pyOrStr new_data.description existing.description
    requirements := pyOrStr new_data.requirements existing.requirements
    skills := (existing.skills ++ new_data.skills).dedup
    salary_range := pyOrOpt new_data.salary_range existing.salary_range
    scraped_date := now }

/-- Apply `_update_job` to the first stored posting whose `job_id` matches
(the row returned by `.filter(JobPosting.job_id == ...).first()`; the
column is `unique`, so at most one row matches). -/
def update_first (js : List JobPosting) (jid : String) (new_data : RawJob)
    (now : Int) : List JobPosting :=
  match js with
  | [] => []
  | p :: rest =>
    if p.job_id = jid then update_job p new_data now :: rest
    else p :: update_first rest jid new_data now

/-- The `JobPosting(...)` constructor call of `_ingest_jobs` (lines
106-122): a new row for `job_data`, with the flushed autoincrement id and
`scraped_date = job_data.get("scraped_date", datetime.utcnow())`. -/
def mk_job_posting (id : Nat) (job_data : RawJob) (now : Int) : JobPosting :=
  { id := id
    job_id := job_data.job_id
    title := job_data.title
    company := job_data.company
    location := job_data.location
    description := job_data.description
    requirements := job_data.requirements
    skills := job_data.skills
    salary_range := job_data.salary_range
    source_url := job_data.source_url
    source_platform := job_data.source_platform
    scraped_date := job_data.scraped_date.getD now }

/-- The `JobChunk(...)` rows built by zipping prepared chunks with their
embeddings (lines 141-149). -/
def mk_job_chunks (job_id : Nat) (cds : List ChunkData)
    (embeddings : List (List ℚ)) : List JobChunk :=
  (cds.zip embeddings).map fun p =>
    { job_posting_id := job_id
      chunk_text := p.1.text
      chunk_index := p.1.index
      embedding := p.2 }

/-- One iteration of the `for job_data in jobs` loop of
`JobIngestionService._ingest_jobs` (lines 90-160), acting on the database
state and the counters.

* found + `_should_update` → `_update_job` in place (no chunk work);
* found otherwise → skip;
* not found → insert the posting; when `prepare_job_chunks` is empty the
  posting is kept with zero chunks; otherwise the chunk texts are embedded
  (`generate_embeddings_batch(texts, batch_size=5)`) and the chunk rows
  inserted.  The `job_chunks.embedding` column is `Vector(db_dim)`
  (`database.py`, line 75, `settings.embedding_dimension`), so a vector of
  any other length makes the per-job `commit` raise; the `except` arm
  (lines 157-160) rolls the whole job back and counts an error. -/
def ingest_one (oracle : List String → Option (List (List ℚ)))
    (gen_dim db_dim : Nat) (now : Int)
    (st : DBState × Stats) (job_data : RawJob) : DBState × Stats :=
  let db := st.1
  let stats := st.2
  match db.postings.find? (fun p => p.job_id == job_data.job_id) with
  | some existing =>
    if should_update existing job_data then
      ({ db with postings := update_first db.postings job_data.job_id job_data now },
       { stats with jobs_updated := stats.jobs_updated + 1 })
    else
      (db, { stats with jobs_skipped := stats.jobs_skipped + 1 })
  | none =>
    let job := mk_job_posting db.next_id job_data now
    let cds := prepare_job_chunks job_data
    if cds.isEmpty then
      ({ db with postings := db.postings ++ [job], next_id := db.next_id + 1 },
       { stats with jobs_new := stats.jobs_new + 1 })
    else
      let embeddings := generate_embeddings_batch oracle gen_dim (cds.map (·.text)) 5
      let new_chunks := mk_job_chunks job.id cds embeddings
      if new_chunks.all (fun c => c.embedding.length == db_dim) then
        ({ db with postings := db.postings ++ [job]
                   chunks := db.chunks ++ new_chunks
                   next_id := db.next_id + 1 },
         { stats with jobs_new := stats.jobs_new + 1
                      chunks_created := stats.chunks_created + new_chunks.length })
      else
        (db, { stats with errors := stats.errors + 1 })

/-- The loop `JobIngestionService._ingest_jobs(jobs)` over all fetched jobs. -/
def ingest_jobs (oracle : List String → Option (List (List ℚ)))
    (gen_dim db_dim : Nat) (now : Int)
    (db : DBState) (stats : Stats) (jobs : List RawJob) : DBState × Stats :=
  jobs.foldl (ingest_one oracle gen_dim db_dim now) (db, stats)

/-! ## Retriever — `RAGRetriever` (`rag/retriever.py`)

The SQL issued by `_build_similarity_query` selects
`(id, chunk_text, 1 - (embedding <=> q) AS similarity, metadata,
job_posting_id)` from `job_chunks`, optionally filtered by a `WHERE`
clause, ordered by `embedding <=> q` ascending, limited to `top_k`.

The `<=>` operator is pgvector's cosine-distance operator, implemented by
the database extension, not by this repository; it is modelled as an
oracle parameter `dist : List ℚ → List ℚ → ℚ` (the spec fixes its reading:
cosine distance, so that `1 - dist` is cosine similarity).  The optional
`WHERE` clause (location `ILIKE` / minimum date) is modelled as a row
predicate `flt`.  `embed_query` models
`self.embedding_gen.generate_embedding(query)`. -/

/-- One stored `job_chunks` row as seen by the retriever. -/
structure ChunkRow where
  id : Nat
  chunk_text : String
  embedding : List ℚ
  job_posting_id : Nat
deriving DecidableEq

/-- One formatted result of `RAGRetriever.retrieve` (lines 57-66). -/
structure RetrievedChunk where
  chunk_id : Nat
  text : String
  similarity_score : ℚ
  job_posting_id : Nat
deriving DecidableEq

/-- The method `RAGRetriever.retrieve(query, top_k, filters)` (lines 22-73): embed the
query, rank the (filtered) chunk rows by ascending cosine distance, keep
the first `top_k`, and report `1 - distance` as the similarity score. -/
def retrieve (dist : List ℚ → List ℚ → ℚ) (embed_query : String → List ℚ)
    (rows : List ChunkRow) (flt : ChunkRow → Bool)
    (query : String) (top_k : Nat) : List RetrievedChunk :=
  let q := embed_query query
  let sorted := (rows.filter flt).mergeSort
    (fun a b => decide (dist q a.embedding ≤ dist q b.embedding))
  (sorted.take top_k).map fun r =>
    { chunk_id := r.id
      text := r.chunk_text
      similarity_score := 1 - dist q r.embedding
      job_posting_id := r.job_posting_id }

/-- Python `needle.lower() in hay.lower()` on code-point lists. -/
def containsSub (hay needle : List Char) : Bool :=
  (List.range (hay.length + 1)).any fun i =>
    matchesAt (hay.map Char.toLower) (needle.map Char.toLower) i

/-- The method `RAGRetriever.hybrid_search(query, keywords, top_k=None)` (lines
178-215).  The very first statement evaluates `top_k * 2`; with the
default `top_k = None` this is `None * 2`, a `TypeError` raised before any
retrieval — modelled by the `Except.error` branch.  With an integer
`top_k`, semantic results for `top_k * 2` are boosted by `0.1` per matched
keyword (capped at `1.0`), re-sorted descending, and cut to
`top_k or settings.retrieval_top_k` (so `top_k = 0`, being falsy, falls
back to the configured default). -/
def hybrid_search (dist : List ℚ → List ℚ → ℚ) (embed_query : String → List ℚ)
    (rows : List ChunkRow) (query : String) (keywords : List String)
    (top_k : Option Nat) : Except String (List RetrievedChunk) :=
  match top_k with
  | none => Except.error "TypeError: unsupported operand type(s) for *: NoneType and int"
  | some k =>
    let semantic := retrieve dist embed_query rows (fun _ => true) query (k * 2)
    let boosted := semantic.map fun r =>
      let boost : ℚ :=
        (keywords.countP fun kw => containsSub r.text.toList kw.toList) * (1 / 10)
      { r with similarity_score := min (r.similarity_score + boost) 1 }
    let sorted := boosted.mergeSort
      (fun a b => decide (b.similarity_score ≤ a.similarity_score))
    Except.ok (sorted.take (if k = 0 then settings_retrieval_top_k else k))

/-! ## Analysis cache — `LMIRAGPipeline` (`rag/pipeline.py`, lines 254-345)

One `skill_analyses` row (`database.py`, lines 86-107); the JSON payload
columns other than `top_skills` behave identically and are represented by
it and by `total_jobs_analyzed`.  Times are `ℤ` in hours, so
`cutoff_time = utcnow() - timedelta(hours=max_age_hours)` is plain
subtraction. -/

structure SkillAnalysisRow where
  query : String
  job_role : Option String
  location : Option String
  top_skills : List String
  total_jobs_analyzed : Nat
  analysis_date : Int
deriving DecidableEq

/-- The exact key-tuple filter of `_get_cached_analysis`
(`query == q AND job_role == role AND location == loc`). -/
def key_matches (r : SkillAnalysisRow) (q : String) (role loc : Option String) : Bool :=
  r.query == q && r.job_role == role && r.location == loc

/-- The query tail `.order_by(analysis_date.desc()).first()`: a row of maximal
`analysis_date` (the earliest such row when several tie, one arbitrary
but fixed choice refining the database's unspecified tie order). -/
def most_recent (rows : List SkillAnalysisRow) : Option SkillAnalysisRow :=
  rows.foldl (fun acc r =>
    match acc with
    | none => some r
    | some m => if m.analysis_date < r.analysis_date then some r else some m) none

/-- The method `LMIRAGPipeline._get_cached_analysis(query, job_role, location,
max_age_hours)` (lines 254-300): the most recent row matching the exact
key tuple with `analysis_date ≥ now - max_age_hours`, else `none`. -/
def get_cached_analysis (rows : List SkillAnalysisRow) (now : Int) (q : String)
    (role loc : Option String) (max_age_hours : Int) : Option SkillAnalysisRow :=
  most_recent (rows.filter fun r =>
    key_matches r q role loc && decide (now - max_age_hours ≤ r.analysis_date))

/-- The method `LMIRAGPipeline._cache_analysis` (lines 302-345): append one row keyed
by the tuple, stamped `analysis_date = now` (the column default
`datetime.utcnow`). -/
def cache_analysis (rows : List SkillAnalysisRow) (now : Int) (q : String)
    (role loc : Option String) (top_skills : List String)
    (total_jobs : Nat) : List SkillAnalysisRow :=
  rows ++ [{ query := q, job_role := role, location := loc,
             top_skills := top_skills, total_jobs_analyzed := total_jobs,
             analysis_date := now }]

/-! ## Concrete instances used by counterexamples and witnesses -/

/-- A stored posting with description `"d"` and skill list `["a"]`. -/
def postingA : JobPosting :=
  { id := 1, job_id := "j1", title := "t", company := "c", location := "l",
    description := "d", requirements := "", skills := ["a"],
    salary_range := none, source_url := "u", source_platform := "s",
    scraped_date := 0 }

/-- A re-fetched posting for the same fingerprint with the same
description and the same skill **set**, but a longer skill **list**
(`"a"` listed twice). -/
def rawA2 : RawJob :=
  { job_id := "j1", title := "t", company := "c", location := "l",
    description := "d", requirements := "", skills := ["a", "a"],
    salary_range := none, source_url := "u", source_platform := "s",
    scraped_date := none }

/-- An embedding oracle that always answers with a 3-dimensional vector
per input text. -/
def w_oracle : List String → Option (List (List ℚ)) :=
  fun ts => some (ts.map fun _ => [0, 0, 0])

/-- An embedding oracle whose vectors have length 1 (wrong for a
3-dimensional `job_chunks.embedding` column). -/
def w_oracle_bad : List String → Option (List (List ℚ)) :=
  fun ts => some (ts.map fun _ => [0])

/-- An embedding oracle that fails on any batch containing the text
`"bad"` and on the single text `"bad"` itself, and otherwise answers with
one 2-dimensional vector per input text. -/
def w_oracle6 : List String → Option (List (List ℚ)) :=
  fun ts => if ts.any (· == "bad") then none else some (ts.map fun _ => [1, 2])

/-- A small raw posting. -/
def w_job : RawJob :=
  { job_id := "jid-1", title := "T", company := "C", location := "L",
    description := "D", requirements := "R", skills := ["py"],
    salary_range := none, source_url := "http://u", source_platform := "src",
    scraped_date := none }

/-- The same raw posting re-fetched with a strictly longer description. -/
def w_job2 : RawJob :=
  { w_job with description := "DD" }

/-! ## Theorems -/

/-- On the input `("aaaa", chunk_size = 2, overlap = 2)` one iteration of
the chunking loop returns to window start `0`, only growing the
accumulator: the overlap swallows the whole window. -/
theorem chunk_text_loop_zero_progress (n : Nat) (acc : List (List Char)) :
    chunk_text_loop "aaaa".toList 2 2 (n + 1) 0 acc
      = chunk_text_loop "aaaa".toList 2 2 n 0 (acc ++ [['a', 'a']]) := by
  rfl

/-- C3: the claim says a configuration with `overlap ≥ max_size` is
detected and rejected with an error instead of looping forever.  The code
has no such guard: on `chunk_text("aaaa", chunk_size=2, overlap=2)` the
window start never advances, so the loop never finishes — for every fuel
bound the fuel-indexed loop is still running (`none`).  The spec calls
this defect out explicitly ("must be fixed, not reproduced"), so the code,
not the claim, is wrong. -/
theorem chunk_text_no_overlap_guard (fuel : Nat) :
    chunk_text "aaaa".toList 2 2 fuel = none := by
  have key : ∀ m acc, chunk_text_loop "aaaa".toList 2 2 m 0 acc = none := by
    intro m
    induction m with
    | zero => intro acc; rfl
    | succ n ih =>
      intro acc
      rw [chunk_text_loop_zero_progress]
      exact ih _
  rw [show chunk_text "aaaa".toList 2 2 fuel
      = chunk_text_loop "aaaa".toList 2 2 fuel 0 [] from rfl]
  exact key fuel []

/-- C5 counterexample: for an input `" a "` of length `3 ≤ max_size` the
code returns the single chunk `" a "` **as is** (`return [text]`), not the
trimmed text `"a"` the claim describes. -/
theorem chunk_text_short_input_not_trimmed :
    chunk_text " a ".toList 512 100 9 = some [" a ".toList] ∧
    " a ".toList ≠ pyStrip " a ".toList := by
  exact ⟨rfl, by decide⟩

/-- C5 (amended): `chunk_text` returns the empty sequence on empty input,
and for nonempty input of length at most `chunk_size` it returns exactly
one chunk equal to the whole input, **untrimmed**. -/
theorem chunk_text_short_input (text : List Char) (chunk_size overlap fuel : Nat) :
    (text = [] → chunk_text text chunk_size overlap fuel = some []) ∧
    (text ≠ [] → text.length ≤ chunk_size →
      chunk_text text chunk_size overlap fuel = some [text]) := by
  constructor
  · rintro rfl
    rfl
  · intro h1 h2
    unfold chunk_text
    rw [if_neg (by simpa using h1), if_pos h2]

/-- C5 witness: the amended theorem applied at concrete inputs. -/
theorem chunk_text_short_input_witness :
    chunk_text "ab".toList 512 100 3 = some ["ab".toList] ∧
    chunk_text "".toList 512 100 3 = some [] :=
  ⟨(chunk_text_short_input "ab".toList 512 100 3).2 (by decide) (by decide),
   (chunk_text_short_input "".toList 512 100 3).1 (by decide)⟩

/-- C10: `hybrid_search` evaluates `top_k * 2` before doing anything else,
so leaving `top_k` at its default `None` raises a `TypeError` for every
database, query and keyword list — before any retrieval is performed —
while any caller-supplied integer `top_k` yields a normal result. -/
theorem hybrid_search_default_top_k_raises
    (dist : List ℚ → List ℚ → ℚ) (embed_query : String → List ℚ)
    (rows : List ChunkRow) (query : String) (keywords : List String) :
    hybrid_search dist embed_query rows query keywords none
      = Except.error "TypeError: unsupported operand type(s) for *: NoneType and int" ∧
    ∀ k : Nat, (hybrid_search dist embed_query rows query keywords (some k)).isOk = true := by
  refine ⟨rfl, fun k => ?_⟩
  simp only [hybrid_search]
  rfl

/-- C2 counterexample: with stored skills `["a"]` and newly fetched skills
`["a", "a"]` (same set, same description), `_should_update` answers
**update** — the heuristic compares skill **list lengths** (counting
duplicates), not skill sets, so "update iff description strictly longer or
skill set strictly larger" is false at this input. -/
theorem should_update_not_set_based :
    should_update postingA rawA2 = true ∧
    rawA2.description.length ≤ postingA.description.length ∧
    rawA2.skills.toFinset = postingA.skills.toFinset := by
  refine ⟨rfl, by decide, by decide⟩

/-- C2 (amended): for a raw posting whose fingerprint is already stored,
ingestion updates the stored posting iff the new description is strictly
longer or the new skills **list** is strictly longer (by element count,
duplicates included) than the stored ones; on update the stored skill set
becomes the union of old and new skill sets and the scraped timestamp is
refreshed to the ingestion time. -/
theorem update_heuristic (oracle : List String → Option (List (List ℚ)))
    (gen_dim db_dim : Nat) (now : Int) (db : DBState) (stats : Stats)
    (existing : JobPosting) (new_data : RawJob)
    (hfind : db.postings.find? (fun p => p.job_id == new_data.job_id) = some existing) :
    (should_update existing new_data = true ↔
      existing.description.length < new_data.description.length ∨
      existing.skills.length < new_data.skills.length) ∧
    ((ingest_one oracle gen_dim db_dim now (db, stats) new_data).1.postings =
      if should_update existing new_data then
        update_first db.postings new_data.job_id new_data now
      else db.postings) ∧
    (update_job existing new_data now).skills.toFinset
      = existing.skills.toFinset ∪ new_data.skills.toFinset ∧
    (update_job existing new_data now).scraped_date = now := by
  refine ⟨?_, ?_, ?_, rfl⟩
  · simp [should_update]
  · simp only [ingest_one, hfind]
    split
    · rfl
    · rfl
  · show (existing.skills ++ new_data.skills).dedup.toFinset = _
    ext a
    simp [List.mem_dedup]

/-- C2 witness: the amended theorem applied at a concrete stored posting
and raw update. -/
theorem update_heuristic_witness :
    (update_job postingA rawA2 7).skills.toFinset
      = postingA.skills.toFinset ∪ rawA2.skills.toFinset ∧
    (update_job postingA rawA2 7).scraped_date = 7 ∧
    should_update postingA rawA2 = true :=
  have h := update_heuristic w_oracle 3 3 7 ⟨[postingA], [], 2⟩ ⟨0, 0, 0, 0, 0⟩
    postingA rawA2 (by decide)
  ⟨h.2.2.1, h.2.2.2, h.1.mpr (Or.inr (by decide))⟩

/-- C7: `retrieve` returns at most `top_k` results, ordered by
non-increasing similarity score, and every result's score is
`1 - dist(query_embedding, chunk_embedding)` for a stored chunk passing
the filter — with `dist` the database's cosine-distance operator `<=>`,
so the score is the cosine similarity. -/
theorem retrieve_spec (dist : List ℚ → List ℚ → ℚ) (embed_query : String → List ℚ)
    (rows : List ChunkRow) (flt : ChunkRow → Bool) (query : String) (top_k : Nat) :
    (retrieve dist embed_query rows flt query top_k).length ≤ top_k ∧
    ((retrieve dist embed_query rows flt query top_k).map
        (fun r => r.similarity_score)).Pairwise (fun a b => b ≤ a) ∧
    ∀ r ∈ retrieve dist embed_query rows flt query top_k,
      ∃ row, row ∈ rows ∧ flt row = true ∧
        r = { chunk_id := row.id, text := row.chunk_text,
              similarity_score := 1 - dist (embed_query query) row.embedding,
              job_posting_id := row.job_posting_id } := by
  refine ⟨?_, ?_, ?_⟩
  · simp only [retrieve, List.length_map, List.length_take]
    exact Nat.min_le_left _ _
  · simp only [retrieve, List.map_map, List.pairwise_map]
    have hsorted := @List.sorted_mergeSort ChunkRow
      (fun a b : ChunkRow =>
        decide (dist (embed_query query) a.embedding ≤ dist (embed_query query) b.embedding))
      (by
        intro a b c hab hbc
        simp only [decide_eq_true_eq] at hab hbc ⊢
        exact le_trans hab hbc)
      (by
        intro a b
        simpa only [Bool.or_eq_true, decide_eq_true_eq] using le_total _ _)
      (rows.filter flt)
    refine List.Pairwise.imp ?_ (List.Pairwise.sublist (List.take_sublist _ _) hsorted)
    intro a b h
    simp only [decide_eq_true_eq] at h
    exact sub_le_sub_left h 1
  · intro r hr
    simp only [retrieve, List.mem_map] at hr
    obtain ⟨row, hrow, rfl⟩ := hr
    have h1 := List.take_subset _ _ hrow
    rw [List.mem_mergeSort, List.mem_filter] at h1
    exact ⟨row, h1.1, h1.2, rfl⟩

/-- Batch loop characterization: for a provider that, on success, answers
one vector per input text consistently with its single-text answers, the
batch loop is the pointwise map of `point_embedding`. -/
theorem generate_embeddings_batch_loop_eq_map
    (oracle : List String → Option (List (List ℚ))) (gen_dim batch_size : Nat)
    (hbs : 0 < batch_size)
    (harity : ∀ ts r, oracle ts = some r → r.length = ts.length)
    (hpoint : ∀ ts r, oracle ts = some r → ∀ i (h1 : i < ts.length) (h2 : i < r.length),
      oracle [ts.get ⟨i, h1⟩] = some [r.get ⟨i, h2⟩]) :
    ∀ fuel texts, texts.length ≤ fuel →
      generate_embeddings_batch_loop oracle gen_dim batch_size fuel texts
        = texts.map (point_embedding oracle gen_dim) := by
  intro fuel
  induction fuel with
  | zero =>
    intro texts h
    rw [List.eq_nil_of_length_eq_zero (Nat.le_zero.1 h)]
    rfl
  | succ n ih =>
    intro texts hlen
    cases texts with
    | nil => rfl
    | cons t ts =>
      have hdrop : ((t :: ts).drop batch_size).length ≤ n := by
        rw [List.length_drop]
        simp only [List.length_cons] at hlen ⊢
        omega
      show (match oracle ((t :: ts).take batch_size) with
        | some embeddings => embeddings
        | none => ((t :: ts).take batch_size).map fun t2 =>
            match oracle [t2] with
            | some (v :: _) => v
            | _ => List.replicate gen_dim 0) ++
          generate_embeddings_batch_loop oracle gen_dim batch_size n ((t :: ts).drop batch_size)
        = (t :: ts).map (point_embedding oracle gen_dim)
      rw [ih _ hdrop]
      cases hor : oracle ((t :: ts).take batch_size) with
      | none =>
        show ((t :: ts).take batch_size).map (point_embedding oracle gen_dim) ++ _ = _
        rw [← List.map_append, List.take_append_drop]
      | some r =>
        have hr : r = ((t :: ts).take batch_size).map (point_embedding oracle gen_dim) := by
          apply List.ext_get
          · rw [List.length_map, harity _ _ hor]
          · intro i h1 h2
            have h3 : i < ((t :: ts).take batch_size).length := by
              rwa [← harity _ _ hor]
            have h4 := hpoint _ _ hor i h3 h1
            rw [List.get_map]
            simp only [point_embedding, h4]
        rw [hr, ← List.map_append, List.take_append_drop]

/-- C6: under a provider that, when a call succeeds, answers exactly one
vector of the declared dimension per input text (consistently between
batch and single calls), `generate_embeddings_batch` returns exactly
`n` vectors for `n` texts, in input order — each text's slot holding
either its provider embedding or, when even the single-text retry fails,
a zero vector of the declared dimension — so every returned vector has
the declared dimension and arity is never broken by failures. -/
theorem generate_embeddings_batch_spec
    (oracle : List String → Option (List (List ℚ))) (gen_dim batch_size : Nat)
    (texts : List String)
    (hbs : 0 < batch_size)
    (harity : ∀ ts r, oracle ts = some r → r.length = ts.length)
    (hdim : ∀ ts r, oracle ts = some r → ∀ v ∈ r, v.length = gen_dim)
    (hpoint : ∀ ts r, oracle ts = some r → ∀ i (h1 : i < ts.length) (h2 : i < r.length),
      oracle [ts.get ⟨i, h1⟩] = some [r.get ⟨i, h2⟩]) :
    generate_embeddings_batch oracle gen_dim texts batch_size
      = texts.map (point_embedding oracle gen_dim) ∧
    (generate_embeddings_batch oracle gen_dim texts batch_size).length = texts.length ∧
    ∀ v ∈ generate_embeddings_batch oracle gen_dim texts batch_size,
      v.length = gen_dim := by
  have hmap := generate_embeddings_batch_loop_eq_map oracle gen_dim batch_size hbs
    harity hpoint texts.length texts le_rfl
  unfold generate_embeddings_batch
  refine ⟨hmap, by rw [hmap, List.length_map], ?_⟩
  rw [hmap]
  intro v hv
  obtain ⟨t, _, rfl⟩ := List.mem_map.1 hv
  unfold point_embedding
  cases h : oracle [t] with
  | none => simp
  | some r =>
    cases r with
    | nil =>
      have := harity _ _ h
      simp at this
    | cons v2 rest => exact hdim _ _ h v2 (List.mem_cons_self _ _)

/-- C6 witness: three texts, the batch call failing because of the text
`"bad"`; the result still has three vectors in order, with a zero vector
of the declared dimension in the failed slot. -/
theorem generate_embeddings_batch_spec_witness :
    generate_embeddings_batch w_oracle6 2 ["u", "bad", "v"] 8
      = [[1, 2], [0, 0], [1, 2]] ∧
    (generate_embeddings_batch w_oracle6 2 ["u", "bad", "v"] 8).length = 3 := by
  have h := generate_embeddings_batch_spec w_oracle6 2 8 ["u", "bad", "v"]
    (by decide)
    (by
      intro ts r hr
      unfold w_oracle6 at hr
      split at hr
      · exact absurd hr (by simp)
      · rw [← Option.some_inj.1 hr, List.length_map])
    (by
      intro ts r hr v hv
      unfold w_oracle6 at hr
      split at hr
      · exact absurd hr (by simp)
      · rw [← Option.some_inj.1 hr] at hv
        obtain ⟨t, _, rfl⟩ := List.mem_map.1 hv
        rfl)
    (by
      intro ts r hr i h1 h2
      unfold w_oracle6 at hr
      split at hr
      · exact absurd hr (by simp)
      · rename_i hany
        obtain rfl := (Option.some_inj.1 hr).symm
        have hmem : ts.get ⟨i, h1⟩ ∈ ts := ts.get_mem _ _
        have hne : (ts.get ⟨i, h1⟩ == "bad") = false := by
          cases hb : ts.get ⟨i, h1⟩ == "bad" with
          | false => rfl
          | true => exact absurd (List.any_eq_true.2 ⟨_, hmem, hb⟩) hany
        have hget : (ts.map fun _ => ([1, 2] : List ℚ)).get ⟨i, h2⟩ = [1, 2] := by
          simp
        rw [hget]
        unfold w_oracle6
        have hne2 : ¬ ts[i] = "bad" := by simpa using hne
        simp [hne2])
  exact ⟨h.1.trans (by decide), h.2.1.trans (by decide)⟩

/-- The fold behind `most_recent`, started from `some m`, yields an
element of the list (or `m`) that dominates every list element and `m`. -/
theorem most_recent_fold_some (rows : List SkillAnalysisRow) :
    ∀ m, ∃ res, rows.foldl (fun acc r =>
        match acc with
        | none => some r
        | some m2 => if m2.analysis_date < r.analysis_date then some r else some m2)
        (some m) = some res ∧
      (res ∈ rows ∨ res = m) ∧ (∀ s ∈ rows, s.analysis_date ≤ res.analysis_date) ∧
      m.analysis_date ≤ res.analysis_date := by
  induction rows with
  | nil => exact fun m => ⟨m, rfl, Or.inr rfl, by simp, le_refl _⟩
  | cons r rest ih =>
    intro m
    by_cases hlt : m.analysis_date < r.analysis_date
    · obtain ⟨res, h1, h2, h3, h4⟩ := ih r
      refine ⟨res, ?_, ?_, ?_, le_of_lt (lt_of_lt_of_le hlt h4)⟩
      · simpa [hlt] using h1
      · rcases h2 with h2 | h2
        · exact Or.inl (List.mem_cons_of_mem _ h2)
        · exact Or.inl (h2 ▸ List.mem_cons_self _ _)
      · intro s hs
        rcases List.mem_cons.1 hs with rfl | hs
        · exact h4
        · exact h3 s hs
    · obtain ⟨res, h1, h2, h3, h4⟩ := ih m
      refine ⟨res, ?_, ?_, ?_, h4⟩
      · simpa [hlt] using h1
      · rcases h2 with h2 | h2
        · exact Or.inl (List.mem_cons_of_mem _ h2)
        · exact Or.inr h2
      · intro s hs
        rcases List.mem_cons.1 hs with rfl | hs
        · exact le_trans (le_of_not_lt hlt) h4
        · exact h3 s hs

/-- Applied to a nonempty list, `most_recent` returns a maximal-date member;
of the empty list, `none`. -/
theorem most_recent_spec (rows : List SkillAnalysisRow) :
    (rows = [] → most_recent rows = none) ∧
    ∀ res, most_recent rows = some res →
      res ∈ rows ∧ ∀ s ∈ rows, s.analysis_date ≤ res.analysis_date := by
  constructor
  · rintro rfl; rfl
  · intro res hres
    cases rows with
    | nil => exact absurd hres (by simp [most_recent])
    | cons r rest =>
      obtain ⟨res2, h1, h2, h3, h4⟩ := most_recent_fold_some rest r
      have : res2 = res := by
        rw [show most_recent (r :: rest) = rest.foldl _ (some r) from rfl, h1] at hres
        exact Option.some_inj.1 hres
      subst this
      refine ⟨?_, ?_⟩
      · rcases h2 with h2 | h2
        · exact List.mem_cons_of_mem _ h2
        · exact h2 ▸ List.mem_cons_self _ _
      · intro s hs
        rcases List.mem_cons.1 hs with rfl | hs
        · exact h4
        · exact h3 s hs

/-- Appending a row strictly fresher than every list element makes it the
`most_recent` row. -/
theorem most_recent_append_fresh (rows : List SkillAnalysisRow)
    (x : SkillAnalysisRow)
    (hfresh : ∀ s ∈ rows, s.analysis_date < x.analysis_date) :
    most_recent (rows ++ [x]) = some x := by
  unfold most_recent
  rw [List.foldl_append]
  cases hacc : rows.foldl (fun acc r =>
      match acc with
      | none => some r
      | some m2 => if m2.analysis_date < r.analysis_date then some r else some m2)
      none with
  | none => rfl
  | some m =>
    have hm := (most_recent_spec rows).2 m hacc
    show (if m.analysis_date < x.analysis_date then some x else some m) = some x
    rw [if_pos (hfresh m hm.1)]

/-- C9: cache lookup returns the most recent row matching the exact
`(query, job_role, location)` key whose `analysis_date` is within
`max_age` of the lookup time; when every matching row is older it returns
`none` (a miss, not an error).  A `store` at time `t0` followed by a
`lookup` at time `t1` with the same key returns the stored row when
`max_age` is generous (`t1 - max_age ≤ t0`), and `none` when
`max_age = 0` and the lookup is strictly later. -/
theorem cache_lookup_spec (rows : List SkillAnalysisRow) (now t0 t1 max_age : Int)
    (q : String) (role loc : Option String) (tops : List String) (tj : Nat) :
    (∀ r, get_cached_analysis rows now q role loc max_age = some r →
      r ∈ rows ∧ key_matches r q role loc = true ∧ now - max_age ≤ r.analysis_date ∧
      ∀ s ∈ rows, key_matches s q role loc = true → now - max_age ≤ s.analysis_date →
        s.analysis_date ≤ r.analysis_date) ∧
    ((∀ s ∈ rows, key_matches s q role loc = true → s.analysis_date < now - max_age) →
      get_cached_analysis rows now q role loc max_age = none) ∧
    ((∀ s ∈ rows, key_matches s q role loc = true → s.analysis_date < t0) →
      t1 - max_age ≤ t0 →
      get_cached_analysis (cache_analysis rows t0 q role loc tops tj) t1 q role loc max_age
        = some ⟨q, role, loc, tops, tj, t0⟩) ∧
    ((∀ s ∈ rows, key_matches s q role loc = true → s.analysis_date < t0) →
      t0 < t1 →
      get_cached_analysis (cache_analysis rows t0 q role loc tops tj) t1 q role loc 0
        = none) := by
  refine ⟨?_, ?_, ?_, ?_⟩
  · intro r hr
    unfold get_cached_analysis at hr
    have h1 := (most_recent_spec _).2 r hr
    have h2 := List.mem_filter.1 h1.1
    have h3 := h2.2
    rw [Bool.and_eq_true, decide_eq_true_eq] at h3
    refine ⟨h2.1, h3.1, h3.2, ?_⟩
    intro s hs hk hfreshs
    exact h1.2 s (List.mem_filter.2 ⟨hs, by rw [Bool.and_eq_true, decide_eq_true_eq]; exact ⟨hk, hfreshs⟩⟩)
  · intro hall
    unfold get_cached_analysis
    have : rows.filter (fun r => key_matches r q role loc && decide (now - max_age ≤ r.analysis_date)) = [] := by
      rw [List.filter_eq_nil]
      intro s hs
      rw [Bool.and_eq_true, decide_eq_true_eq]
      rintro ⟨hk, hf⟩
      exact absurd hf (not_le.2 (hall s hs hk))
    rw [this]
    rfl
  · intro hall hgen
    unfold get_cached_analysis cache_analysis
    rw [List.filter_append]
    have hx : List.filter (fun r => key_matches r q role loc && decide (t1 - max_age ≤ r.analysis_date))
        [(⟨q, role, loc, tops, tj, t0⟩ : SkillAnalysisRow)] = [⟨q, role, loc, tops, tj, t0⟩] := by
      simp only [List.filter_cons, List.filter_nil]
      rw [if_pos]
      rw [Bool.and_eq_true, decide_eq_true_eq]
      exact ⟨by simp [key_matches], hgen⟩
    rw [hx]
    apply most_recent_append_fresh
    intro s hs
    have h2 := List.mem_filter.1 hs
    have h3 := h2.2
    rw [Bool.and_eq_true] at h3
    exact hall s h2.1 h3.1
  · intro hall hlt
    unfold get_cached_analysis cache_analysis
    have : (rows ++ [(⟨q, role, loc, tops, tj, t0⟩ : SkillAnalysisRow)]).filter
        (fun r => key_matches r q role loc && decide (t1 - 0 ≤ r.analysis_date)) = [] := by
      rw [List.filter_eq_nil]
      intro s hs
      rw [Bool.and_eq_true, decide_eq_true_eq]
      rintro ⟨hk, hf⟩
      rcases List.mem_append.1 hs with hs | hs
      · exact absurd hf (not_le.2 (by rw [sub_zero]; exact lt_trans (hall s hs hk) hlt))
      · rw [List.mem_singleton.1 hs] at hf
        rw [sub_zero] at hf
        exact absurd hf (not_le.2 hlt)
    rw [this]
    rfl

/-- C9 witness: store at time 5, look up at time 6 — a generous
`max_age = 100` returns the stored row, `max_age = 0` misses. -/
theorem cache_lookup_spec_witness :
    get_cached_analysis (cache_analysis [] 5 "q" none none ["s"] 2) 6 "q" none none 100
      = some ⟨"q", none, none, ["s"], 2, 5⟩ ∧
    get_cached_analysis (cache_analysis [] 5 "q" none none ["s"] 2) 6 "q" none none 0
      = none :=
  ⟨(cache_lookup_spec [] 6 5 6 100 "q" none none ["s"] 2).2.2.1 (by simp) (by decide),
   (cache_lookup_spec [] 6 5 6 0 "q" none none ["s"] 2).2.2.2 (by simp) (by decide)⟩

/-- Create-path evaluation of `ingest_one`: with no stored posting for the
fingerprint, and embeddings all of the column dimension, the posting and
its chunk rows are inserted and `jobs_new` is counted. -/
theorem ingest_one_create (oracle : List String → Option (List (List ℚ)))
    (gen_dim db_dim : Nat) (now : Int) (db : DBState) (stats : Stats) (j : RawJob)
    (hnone : db.postings.find? (fun p => p.job_id == j.job_id) = none)
    (hdims : ∀ v ∈ generate_embeddings_batch oracle gen_dim
        ((prepare_job_chunks j).map (fun c => c.text)) 5, v.length = db_dim) :
    ingest_one oracle gen_dim db_dim now (db, stats) j
      = ({ db with
            postings := db.postings ++ [mk_job_posting db.next_id j now]
            chunks := db.chunks ++ mk_job_chunks db.next_id (prepare_job_chunks j)
              (generate_embeddings_batch oracle gen_dim
                ((prepare_job_chunks j).map (fun c => c.text)) 5)
            next_id := db.next_id + 1 },
         { stats with
            jobs_new := stats.jobs_new + 1
            chunks_created := stats.chunks_created +
              (mk_job_chunks db.next_id (prepare_job_chunks j)
                (generate_embeddings_batch oracle gen_dim
                  ((prepare_job_chunks j).map (fun c => c.text)) 5)).length }) := by
  simp only [ingest_one, hnone]
  by_cases hemp : prepare_job_chunks j = []
  · simp [hemp, mk_job_chunks]
  · have hall : (mk_job_chunks (mk_job_posting db.next_id j now).id (prepare_job_chunks j)
        (generate_embeddings_batch oracle gen_dim
          ((prepare_job_chunks j).map (fun c => c.text)) 5)).all
        (fun c => c.embedding.length == db_dim) = true := by
      rw [List.all_eq_true]
      intro c hc
      simp only [mk_job_chunks, List.mem_map] at hc
      obtain ⟨p, hp, rfl⟩ := hc
      exact beq_iff_eq.2 (hdims _ (List.of_mem_zip hp).2)
    rw [if_neg (by simpa using hemp), if_pos hall]
    rfl

/-- C1: ingesting a raw posting into a database that does not yet store
its fingerprint, then re-running ingestion with the same raw input,
leaves the database state unchanged on the second run (no duplicate
posting, no duplicate chunks) — the second run hits the found path and
`_should_update` answers skip —, with exactly one stored posting for the
fingerprint, whose skill set equals the raw posting's (hence is
non-decreasing across the re-ingestion). -/
theorem ingest_idempotent (oracle : List String → Option (List (List ℚ)))
    (gen_dim db_dim : Nat) (now1 now2 : Int) (db : DBState) (stats : Stats) (j : RawJob)
    (hfresh : ∀ p ∈ db.postings, p.job_id ≠ j.job_id)
    (hdims : ∀ v ∈ generate_embeddings_batch oracle gen_dim
        ((prepare_job_chunks j).map (fun c => c.text)) 5, v.length = db_dim) :
    (ingest_jobs oracle gen_dim db_dim now2
        (ingest_jobs oracle gen_dim db_dim now1 db stats [j]).1
        (ingest_jobs oracle gen_dim db_dim now1 db stats [j]).2 [j]).1
      = (ingest_jobs oracle gen_dim db_dim now1 db stats [j]).1 ∧
    ∃ p, (ingest_jobs oracle gen_dim db_dim now1 db stats [j]).1.postings.filter
        (fun x => x.job_id == j.job_id) = [p] ∧
      p.skills.toFinset = j.skills.toFinset := by
  have hnone : db.postings.find? (fun p => p.job_id == j.job_id) = none := by
    rw [List.find?_eq_none]
    intro p hp
    simpa using hfresh p hp
  have h1 : ingest_jobs oracle gen_dim db_dim now1 db stats [j]
      = ingest_one oracle gen_dim db_dim now1 (db, stats) j := rfl
  rw [h1, ingest_one_create oracle gen_dim db_dim now1 db stats j hnone hdims]
  have hmatch : (mk_job_posting db.next_id j now1).job_id == j.job_id := by
    simp [mk_job_posting]
  constructor
  · have hfind2 : (db.postings ++ [mk_job_posting db.next_id j now1]).find?
        (fun p => p.job_id == j.job_id) = some (mk_job_posting db.next_id j now1) := by
      rw [List.find?_append, hnone]
      simp [List.find?, hmatch]
    have hsu : should_update (mk_job_posting db.next_id j now1) j = false := by
      simp [should_update, mk_job_posting]
    show (ingest_one oracle gen_dim db_dim now2 _ j).1 = _
    simp only [ingest_one, hfind2, hsu]
    rfl
  · refine ⟨mk_job_posting db.next_id j now1, ?_, by simp [mk_job_posting]⟩
    show (db.postings ++ [mk_job_posting db.next_id j now1]).filter
        (fun x => x.job_id == j.job_id) = _
    rw [List.filter_append]
    have hnil : db.postings.filter (fun x => x.job_id == j.job_id) = [] := by
      rw [List.filter_eq_nil_iff]
      intro p hp
      simpa using hfresh p hp
    rw [hnil]
    simp [hmatch]

/-- C1 witness: a concrete raw posting ingested twice into an empty
database under a provider answering 3-dimensional embeddings. -/
theorem ingest_idempotent_witness :
    (ingest_jobs w_oracle 3 3 1
        (ingest_jobs w_oracle 3 3 0 ⟨[], [], 0⟩ ⟨0, 0, 0, 0, 0⟩ [w_job]).1
        (ingest_jobs w_oracle 3 3 0 ⟨[], [], 0⟩ ⟨0, 0, 0, 0, 0⟩ [w_job]).2 [w_job]).1
      = (ingest_jobs w_oracle 3 3 0 ⟨[], [], 0⟩ ⟨0, 0, 0, 0, 0⟩ [w_job]).1 ∧
    ∃ p, (ingest_jobs w_oracle 3 3 0 ⟨[], [], 0⟩ ⟨0, 0, 0, 0, 0⟩ [w_job]).1.postings.filter
        (fun x => x.job_id == w_job.job_id) = [p] ∧
      p.skills.toFinset = w_job.skills.toFinset :=
  ingest_idempotent w_oracle 3 3 0 1 ⟨[], [], 0⟩ ⟨0, 0, 0, 0, 0⟩ w_job
    (by simp) (by decide)

/-- C4 counterexample: create a posting, then re-ingest it with a strictly
longer description.  The update heuristic fires (`jobs_updated = 1`, the
stored description becomes `"DD"`), but the stored chunks are exactly the
ones from the first run — and they differ from the chunks that the updated
raw data would produce — so a freshly updated posting does **not** trigger
chunk generation or embedding. -/
theorem ingest_update_does_not_rechunk :
    (ingest_jobs w_oracle 3 3 1
        (ingest_jobs w_oracle 3 3 0 ⟨[], [], 0⟩ ⟨0, 0, 0, 0, 0⟩ [w_job]).1
        (ingest_jobs w_oracle 3 3 0 ⟨[], [], 0⟩ ⟨0, 0, 0, 0, 0⟩ [w_job]).2 [w_job2]).2.jobs_updated = 1 ∧
    (ingest_jobs w_oracle 3 3 1
        (ingest_jobs w_oracle 3 3 0 ⟨[], [], 0⟩ ⟨0, 0, 0, 0, 0⟩ [w_job]).1
        (ingest_jobs w_oracle 3 3 0 ⟨[], [], 0⟩ ⟨0, 0, 0, 0, 0⟩ [w_job]).2 [w_job2]).1.chunks
      = (ingest_jobs w_oracle 3 3 0 ⟨[], [], 0⟩ ⟨0, 0, 0, 0, 0⟩ [w_job]).1.chunks ∧
    (ingest_jobs w_oracle 3 3 1
        (ingest_jobs w_oracle 3 3 0 ⟨[], [], 0⟩ ⟨0, 0, 0, 0, 0⟩ [w_job]).1
        (ingest_jobs w_oracle 3 3 0 ⟨[], [], 0⟩ ⟨0, 0, 0, 0, 0⟩ [w_job]).2 [w_job2]).1.postings.map
        (fun p => p.description) = ["DD"] ∧
    (ingest_jobs w_oracle 3 3 0 ⟨[], [], 0⟩ ⟨0, 0, 0, 0, 0⟩ [w_job]).1.chunks.map
        (fun c => c.chunk_text)
      ≠ (prepare_job_chunks w_job2).map (fun c => c.text) := by
  decide

/-- C4 (amended): only newly created postings trigger chunk generation and
batched embedding; a stored posting freshly updated by the heuristic keeps
its existing chunks unchanged (no chunk generation, no embedding, no new
chunk rows).  On the create path the posting is persisted and the run not
failed; in particular a create producing no chunks still stores the
posting with zero chunk rows. -/
theorem ingest_chunking_paths (oracle : List String → Option (List (List ℚ)))
    (gen_dim db_dim : Nat) (now : Int) (db : DBState) (stats : Stats) (j : RawJob) :
    (∀ existing, db.postings.find? (fun p => p.job_id == j.job_id) = some existing →
      (ingest_one oracle gen_dim db_dim now (db, stats) j).1.chunks = db.chunks ∧
      (ingest_one oracle gen_dim db_dim now (db, stats) j).2.chunks_created
        = stats.chunks_created ∧
      (ingest_one oracle gen_dim db_dim now (db, stats) j).2.errors = stats.errors) ∧
    (db.postings.find? (fun p => p.job_id == j.job_id) = none →
      (∀ v ∈ generate_embeddings_batch oracle gen_dim
          ((prepare_job_chunks j).map (fun c => c.text)) 5, v.length = db_dim) →
      (ingest_one oracle gen_dim db_dim now (db, stats) j).1.postings
        = db.postings ++ [mk_job_posting db.next_id j now] ∧
      (ingest_one oracle gen_dim db_dim now (db, stats) j).2.errors = stats.errors ∧
      (ingest_one oracle gen_dim db_dim now (db, stats) j).2.jobs_new
        = stats.jobs_new + 1) := by
  constructor
  · intro existing hfind
    simp only [ingest_one, hfind]
    split
    · exact ⟨rfl, rfl, rfl⟩
    · exact ⟨rfl, rfl, rfl⟩
  · intro hnone hdims
    rw [ingest_one_create oracle gen_dim db_dim now db stats j hnone hdims]
    exact ⟨rfl, rfl, rfl⟩

/-- C4 witness: the amended theorem applied on the found path (stored
posting `postingA`, raw update `rawA2`: chunks untouched) and on the
create path (`w_job` into an empty database: posting persisted, run not
failed). -/
theorem ingest_chunking_paths_witness :
    (ingest_one w_oracle 3 3 7 (⟨[postingA], [], 2⟩, ⟨0, 0, 0, 0, 0⟩) rawA2).1.chunks = [] ∧
    (ingest_one w_oracle 3 3 0 (⟨[], [], 0⟩, ⟨0, 0, 0, 0, 0⟩) w_job).2.jobs_new = 1 ∧
    (ingest_one w_oracle 3 3 0 (⟨[], [], 0⟩, ⟨0, 0, 0, 0, 0⟩) w_job).2.errors = 0 :=
  ⟨((ingest_chunking_paths w_oracle 3 3 7 ⟨[postingA], [], 2⟩ ⟨0, 0, 0, 0, 0⟩ rawA2).1
      postingA (by decide)).1,
   ((ingest_chunking_paths w_oracle 3 3 0 ⟨[], [], 0⟩ ⟨0, 0, 0, 0, 0⟩ w_job).2
      (by decide) (by decide)).2.2,
   ((ingest_chunking_paths w_oracle 3 3 0 ⟨[], [], 0⟩ ⟨0, 0, 0, 0, 0⟩ w_job).2
      (by decide) (by decide)).2.1⟩

/-- Found-path evaluation of `ingest_one`. -/
theorem ingest_one_found (oracle : List String → Option (List (List ℚ)))
    (gen_dim db_dim : Nat) (now : Int) (db : DBState) (stats : Stats) (j : RawJob)
    (existing : JobPosting)
    (hfind : db.postings.find? (fun p => p.job_id == j.job_id) = some existing) :
    ingest_one oracle gen_dim db_dim now (db, stats) j
      = if should_update existing j then
          ({ db with postings := update_first db.postings j.job_id j now },
           { stats with jobs_updated := stats.jobs_updated + 1 })
        else
          (db, { stats with jobs_skipped := stats.jobs_skipped + 1 }) := by
  simp only [ingest_one, hfind]

/-- Create-path evaluation of `ingest_one` without any assumption on the
embedding lengths. -/
theorem ingest_one_not_found (oracle : List String → Option (List (List ℚ)))
    (gen_dim db_dim : Nat) (now : Int) (db : DBState) (stats : Stats) (j : RawJob)
    (hnone : db.postings.find? (fun p => p.job_id == j.job_id) = none) :
    ingest_one oracle gen_dim db_dim now (db, stats) j
      = if (prepare_job_chunks j).isEmpty then
          ({ db with postings := db.postings ++ [mk_job_posting db.next_id j now]
                     next_id := db.next_id + 1 },
           { stats with jobs_new := stats.jobs_new + 1 })
        else if (mk_job_chunks (mk_job_posting db.next_id j now).id (prepare_job_chunks j)
            (generate_embeddings_batch oracle gen_dim
              ((prepare_job_chunks j).map (fun c => c.text)) 5)).all
            (fun c => c.embedding.length == db_dim) then
          ({ db with postings := db.postings ++ [mk_job_posting db.next_id j now]
                     chunks := db.chunks ++ mk_job_chunks (mk_job_posting db.next_id j now).id
                       (prepare_job_chunks j) (generate_embeddings_batch oracle gen_dim
                         ((prepare_job_chunks j).map (fun c => c.text)) 5)
                     next_id := db.next_id + 1 },
           { stats with jobs_new := stats.jobs_new + 1
                        chunks_created := stats.chunks_created +
                          (mk_job_chunks (mk_job_posting db.next_id j now).id
                            (prepare_job_chunks j) (generate_embeddings_batch oracle gen_dim
                              ((prepare_job_chunks j).map (fun c => c.text)) 5)).length })
        else
          (db, { stats with errors := stats.errors + 1 }) := by
  simp only [ingest_one, hnone]

/-- Every chunk row present after one ingestion step has an embedding of
the `job_chunks` column dimension, provided the rows before the step did —
a wrong-length vector never reaches the stored state (the job is rolled
back instead). -/
theorem ingest_one_dim_invariant (oracle : List String → Option (List (List ℚ)))
    (gen_dim db_dim : Nat) (now : Int) (st : DBState × Stats) (j : RawJob)
    (hinv : ∀ c ∈ st.1.chunks, c.embedding.length = db_dim) :
    ∀ c ∈ (ingest_one oracle gen_dim db_dim now st j).1.chunks,
      c.embedding.length = db_dim := by
  obtain ⟨db, stats⟩ := st
  intro c hc
  cases hfind : db.postings.find? (fun p => p.job_id == j.job_id) with
  | some existing =>
    rw [ingest_one_found oracle gen_dim db_dim now db stats j existing hfind] at hc
    by_cases hsu : should_update existing j = true
    · rw [if_pos hsu] at hc
      exact hinv c hc
    · rw [if_neg hsu] at hc
      exact hinv c hc
  | none =>
    rw [ingest_one_not_found oracle gen_dim db_dim now db stats j hfind] at hc
    by_cases hemp : (prepare_job_chunks j).isEmpty = true
    · rw [if_pos hemp] at hc
      exact hinv c hc
    · rw [if_neg hemp] at hc
      by_cases hall : (mk_job_chunks (mk_job_posting db.next_id j now).id (prepare_job_chunks j)
          (generate_embeddings_batch oracle gen_dim
            ((prepare_job_chunks j).map (fun c2 => c2.text)) 5)).all
          (fun c2 => c2.embedding.length == db_dim) = true
      · rw [if_pos hall] at hc
        rcases List.mem_append.1 hc with hc2 | hc2
        · exact hinv c hc2
        · exact beq_iff_eq.1 (List.all_eq_true.1 hall c hc2)
      · rw [if_neg hall] at hc
        exact hinv c hc

/-- C8: starting from a database whose chunk embeddings all have the
configured dimension, any ingestion run preserves that invariant — every
stored chunk's embedding length equals the configured dimension — and a
posting whose batch of embeddings contains a wrong-length vector is a
fatal ingestion error for that posting: nothing of it is stored (no
truncation, no padding, no as-is insert) and the error counter is
incremented. -/
theorem chunk_dimension_invariant (oracle : List String → Option (List (List ℚ)))
    (gen_dim db_dim : Nat) (now : Int) (db : DBState) (stats : Stats)
    (jobs : List RawJob)
    (hinv : ∀ c ∈ db.chunks, c.embedding.length = db_dim) :
    (∀ c ∈ (ingest_jobs oracle gen_dim db_dim now db stats jobs).1.chunks,
      c.embedding.length = db_dim) ∧
    (∀ (db2 : DBState) (stats2 : Stats) (j : RawJob),
      db2.postings.find? (fun p => p.job_id == j.job_id) = none →
      ((prepare_job_chunks j).zip (generate_embeddings_batch oracle gen_dim
          ((prepare_job_chunks j).map (fun c => c.text)) 5)).any
        (fun p => decide (p.2.length ≠ db_dim)) = true →
      (ingest_one oracle gen_dim db_dim now (db2, stats2) j).1 = db2 ∧
      (ingest_one oracle gen_dim db_dim now (db2, stats2) j).2.errors
        = stats2.errors + 1) := by
  constructor
  · have main : ∀ (js : List RawJob) (st : DBState × Stats),
        (∀ c ∈ st.1.chunks, c.embedding.length = db_dim) →
        ∀ c ∈ (js.foldl (ingest_one oracle gen_dim db_dim now) st).1.chunks,
          c.embedding.length = db_dim := by
      intro js
      induction js with
      | nil => exact fun st h => h
      | cons a as ih =>
        intro st h
        exact ih _ (ingest_one_dim_invariant oracle gen_dim db_dim now st a h)
    exact main jobs (db, stats) hinv
  · intro db2 stats2 j hnone hbad
    obtain ⟨p, hp, hlen⟩ := List.any_eq_true.1 hbad
    rw [decide_eq_true_eq] at hlen
    have hcds : ¬ (prepare_job_chunks j).isEmpty = true := by
      intro hemp
      rw [List.isEmpty_iff] at hemp
      rw [hemp] at hp
      simp at hp
    have hnall : ¬ (mk_job_chunks (mk_job_posting db2.next_id j now).id (prepare_job_chunks j)
        (generate_embeddings_batch oracle gen_dim
          ((prepare_job_chunks j).map (fun c => c.text)) 5)).all
        (fun c => c.embedding.length == db_dim) = true := by
      intro hall
      have hm : ({ job_posting_id := (mk_job_posting db2.next_id j now).id
                   chunk_text := p.1.text
                   chunk_index := p.1.index
                   embedding := p.2 } : JobChunk) ∈ mk_job_chunks
          (mk_job_posting db2.next_id j now).id (prepare_job_chunks j)
          (generate_embeddings_batch oracle gen_dim
            ((prepare_job_chunks j).map (fun c => c.text)) 5) := by
        simp only [mk_job_chunks, List.mem_map]
        exact ⟨p, hp, rfl⟩
      exact hlen (beq_iff_eq.1 (List.all_eq_true.1 hall _ hm))
    simp only [ingest_one, hnone]
    rw [if_neg hcds, if_neg hnall]
    exact ⟨rfl, rfl⟩

/-- C8 witness: a provider answering 1-dimensional vectors against a
3-dimensional `job_chunks.embedding` column — the posting is not stored
in any form and the error counter is incremented. -/
theorem chunk_dimension_invariant_witness :
    (ingest_one w_oracle_bad 1 3 0 (⟨[], [], 0⟩, ⟨0, 0, 0, 0, 0⟩) w_job).1 = ⟨[], [], 0⟩ ∧
    (ingest_one w_oracle_bad 1 3 0 (⟨[], [], 0⟩, ⟨0, 0, 0, 0, 0⟩) w_job).2.errors = 1 :=
  (chunk_dimension_invariant w_oracle_bad 1 3 0 ⟨[], [], 0⟩ ⟨0, 0, 0, 0, 0⟩ []
      (by simp)).2 ⟨[], [], 0⟩ ⟨0, 0, 0, 0, 0⟩ w_job (by decide) (by decide)

end LMI
